import Mathlib

/-!
Verification development for the Secure-Voting-System repository: a shallow
embedding of the Express backend (`src/backend/server.js`), the client helper
class (`src/frontend/src/App.js`), and the Paillier arithmetic the two invoke
through the `paillier-bigint` library, together with proofs and refutations of
the specification's claims about them.
-/

namespace SecureVoting

/-- Modelled from the spec: the Paillier encryption invoked by
`SecureVotingClient.castVote` via the `paillier-bigint` library, which is not
part of this repository's sources.  With the canonical generator `g = n + 1`
(spec §4.3): `ciphertext = (g^m mod n²) · (r^n mod n²) mod n²`. -/
def encrypt (n m r : ℕ) : ℕ :=
  ((n + 1) ^ m % n ^ 2) * (r ^ n % n ^ 2) % n ^ 2

/-- Modelled from the spec: the Paillier `L` function, `L(x) = (x − 1) / n`
with exact integer division (spec §3). -/
def Lfun (n x : ℕ) : ℕ := (x - 1) / n

/-- Modelled from the spec: the arithmetic of the Paillier decryption invoked
by `SecureVotingClient.decryptResults` via the library, which is not part of
this repository's sources: `plaintext = (L(c^λ mod n²) · μ) mod n` (spec
§4.3).  The §4.3 `DecryptionError` path is modelled separately by
`decryptChecked`. -/
def decrypt (n lam mu c : ℕ) : ℕ :=
  Lfun n (c ^ lam % n ^ 2) * mu % n

/-- Modelled from the spec: the full decryption operation of §4.3, including
its error path — it fails with `DecryptionError` (here `none`) when the
ciphertext is not a valid element of the ciphertext group,
`gcd(ciphertext, n²) ≠ 1`, and otherwise returns the decrypted plaintext. -/
def decryptChecked (n lam mu c : ℕ) : Option ℕ :=
  if Nat.gcd c (n ^ 2) = 1 then some (decrypt n lam mu c) else none

/-- Modelled from the spec: the library's homomorphic addition used by the
compute handler, `E(a) · E(b) mod n²` (spec §4.4: iterative modular
multiplication). -/
def addition (n a b : ℕ) : ℕ := a * b % n ^ 2

/-- The fold performed by the compute handler (server.js lines 145–153):
`encryptedSum` starts at `votes[0]` and the loop multiplies in the remaining
ciphertexts modulo `n²`.  The empty case is unreachable behind the handler's
emptiness guard. -/
def foldCiphertexts (n : ℕ) : List ℕ → ℕ
  | [] => 0
  | c :: cs => cs.foldl (addition n) c

/-- Modelled from the spec (§3, §4.2): a valid Paillier key pair over modulus
`n = p · q`: distinct primes `p ≠ q`, `λ = lcm(p−1, q−1)`, and `μ` the modular
inverse of `L(g^λ mod n²) = λ mod n` for `g = n + 1`, captured by its defining
property `μ · λ ≡ 1 (mod n)`. -/
def ValidKeyPair (p q lam mu : ℕ) : Prop :=
  p.Prime ∧ q.Prime ∧ p ≠ q ∧ lam = Nat.lcm (p - 1) (q - 1) ∧
    mu * lam ≡ 1 [MOD p * q]

/-- The public half stored in `votingSessions[sessionId].publicKey`. -/
structure PublicKeyData where
  n : ℕ
  g : ℕ
deriving DecidableEq

/-- One record of the `votingSessions` store (server.js lines 39–46). -/
structure SessionRecord where
  publicKey : PublicKeyData
  createdAt : ℕ
  voteCount : ℕ
deriving DecidableEq

/-- One entry of `encryptedVotes[sessionId]` (server.js lines 91–94).
Ciphertexts travel as arbitrary-precision decimal strings; they are modelled
by their numeric value, whose decimal rendering is `Nat.repr`. -/
structure VoteRecord where
  encryptedValue : ℕ
  timestamp : ℕ
deriving DecidableEq

/-- The key pair produced by `paillier.generateRandomKeys` inside the init
handler (server.js line 33); the private half is carried here only so the
theorems can show it never reaches the session store. -/
structure KeyPair where
  n : ℕ
  g : ℕ
  lambda : ℕ
  mu : ℕ
deriving DecidableEq

/-- The two in-memory stores of server.js (lines 22–23). -/
structure ServerState where
  votingSessions : List (String × SessionRecord)
  encryptedVotes : List (String × List VoteRecord)
deriving DecidableEq

/-- JavaScript object read `store[key]`. -/
def getKey {α : Type} : List (String × α) → String → Option α
  | [], _ => none
  | (k, v) :: rest, key => if k = key then some v else getKey rest key

/-- JavaScript object write `store[key] = value` (replace or append). -/
def setKey {α : Type} : List (String × α) → String → α → List (String × α)
  | [], key, value => [(key, value)]
  | (k, v) :: rest, key, value =>
      if k = key then (key, value) :: rest else (k, v) :: setKey rest key value

/-- Body of the `/api/voting/init` response (server.js lines 54–66): note the
private half is sent back to the caller. -/
structure InitResponse where
  sessionId : String
  publicKeyN : ℕ
  publicKeyG : ℕ
  privateKeyLambda : ℕ
  privateKeyMu : ℕ
deriving DecidableEq

/-- Responses of the submit handler: 404 `Session not found`, or success with
the updated vote count. -/
inductive SubmitResponse where
  | sessionNotFound
  | ok (voteCount : ℕ)
deriving DecidableEq

/-- Responses of the compute handler: 404 `Session not found`, 400
`No votes to compute` (the spec's `EmptyTallyError`), or success carrying the
encrypted aggregate and the vote count. -/
inductive ComputeResponse where
  | sessionNotFound
  | noVotesToCompute
  | ok (encryptedResult : ℕ) (voteCount : ℕ)
deriving DecidableEq

/-- POST `/api/voting/init` (server.js lines 28–71): stores only the public
half plus metadata, initialises the vote list, and returns both halves of the
key pair to the caller. -/
def initHandler (s : ServerState) (sid : String) (kp : KeyPair) (t : ℕ) :
    ServerState × InitResponse :=
  let record : SessionRecord :=
    { publicKey := { n := kp.n, g := kp.g }, createdAt := t, voteCount := 0 }
  ({ votingSessions := setKey s.votingSessions sid record,
     encryptedVotes := setKey s.encryptedVotes sid [] },
   { sessionId := sid, publicKeyN := kp.n, publicKeyG := kp.g,
     privateKeyLambda := kp.lambda, privateKeyMu := kp.mu })

/-- POST `/api/voting/submit` (server.js lines 76–108): only existence of the
session is checked; the submitted value is appended unconditionally and
`voteCount` is incremented. -/
def submitHandler (s : ServerState) (sid : String) (ev t : ℕ) :
    ServerState × SubmitResponse :=
  match getKey s.votingSessions sid with
  | none => (s, .sessionNotFound)
  | some record =>
      let votes := (getKey s.encryptedVotes sid).getD []
      let record2 := { record with voteCount := record.voteCount + 1 }
      ({ votingSessions := setKey s.votingSessions sid record2,
         encryptedVotes := setKey s.encryptedVotes sid (votes ++ [⟨ev, t⟩]) },
       .ok record2.voteCount)

/-- POST `/api/voting/compute` (server.js lines 113–169): 404 when the session
is missing, 400 `No votes to compute` when the vote list is empty, otherwise
the homomorphic fold of all stored ciphertexts; the stores are never
written. -/
def computeHandler (s : ServerState) (sid : String) :
    ServerState × ComputeResponse :=
  match getKey s.votingSessions sid with
  | none => (s, .sessionNotFound)
  | some record =>
      let votes := (getKey s.encryptedVotes sid).getD []
      if votes.length = 0 then (s, .noVotesToCompute)
      else
        (s, .ok (foldCiphertexts record.publicKey.n
            (votes.map VoteRecord.encryptedValue)) votes.length)

/-- One entry of the `votes` array of the session snapshot (server.js lines
195–198). -/
structure VoteSnapshot where
  encrypted : String
  timestamp : ℕ
deriving DecidableEq

/-- The `session` object of the snapshot (server.js lines 189–194). -/
structure SessionSnapshot where
  sessionId : String
  voteCount : ℕ
  createdAt : ℕ
  publicKey : PublicKeyData
deriving DecidableEq

/-- Responses of the get-session handler. -/
inductive GetSessionResponse where
  | sessionNotFound
  | ok (session : SessionSnapshot) (votes : List VoteSnapshot)
deriving DecidableEq

/-- `v.encryptedValue.substring(0, 50) + '...'` (server.js line 196). -/
def truncateCiphertext (v : ℕ) : String := (Nat.repr v).take 50 ++ "..."

/-- GET `/api/voting/session/:sessionId` (server.js lines 174–200). -/
def getSessionHandler (s : ServerState) (sid : String) : GetSessionResponse :=
  match getKey s.votingSessions sid with
  | none => .sessionNotFound
  | some record =>
      .ok { sessionId := sid, voteCount := record.voteCount,
            createdAt := record.createdAt, publicKey := record.publicKey }
        (((getKey s.encryptedVotes sid).getD []).map fun v =>
          { encrypted := truncateCiphertext v.encryptedValue,
            timestamp := v.timestamp })

/-- One inbound request, with the non-deterministic data (generated key pair,
fresh session id, clock) made explicit as parameters. -/
inductive Op where
  | init (sid : String) (kp : KeyPair) (t : ℕ)
  | submit (sid : String) (ev t : ℕ)
  | compute (sid : String)
  | getSession (sid : String)
deriving DecidableEq

/-- State effect of one request. -/
def step (s : ServerState) : Op → ServerState
  | .init sid kp t => (initHandler s sid kp t).1
  | .submit sid ev t => (submitHandler s sid ev t).1
  | .compute sid => (computeHandler s sid).1
  | .getSession _ => s

/-- The server state after a request sequence, starting from the empty
stores of server.js lines 22–23. -/
def run (ops : List Op) : ServerState :=
  ops.foldl step { votingSessions := [], encryptedVotes := [] }

/-- The field structure of a stored session record, mirroring the object
literal at server.js lines 39–46. -/
def serializeRecord (r : SessionRecord) : List (String × String) :=
  [("publicKey.n", Nat.repr r.publicKey.n),
   ("publicKey.g", Nat.repr r.publicKey.g),
   ("createdAt", Nat.repr r.createdAt),
   ("voteCount", Nat.repr r.voteCount)]

/-- Erase the private half of every key pair appearing in a request
sequence. -/
def scrubPrivate : Op → Op
  | .init sid kp t => .init sid { n := kp.n, g := kp.g, lambda := 0, mu := 0 } t
  | o => o

theorem getKey_setKey_self {α : Type} (l : List (String × α)) (k : String) (v : α) :
    getKey (setKey l k v) k = some v := by
  induction l with
  | nil => simp [setKey, getKey]
  | cons hd tl ih =>
      obtain ⟨k1, v1⟩ := hd
      by_cases h : k1 = k
      · simp [setKey, h, getKey]
      · simp [setKey, h, getKey, ih]

theorem add_one_pow_modEq (n : ℕ) : ∀ x : ℕ, (n + 1) ^ x ≡ 1 + x * n [MOD n ^ 2] := by
  intro x
  induction x with
  | zero => simpa using Nat.ModEq.refl (1 : ℕ)
  | succ k ih =>
      have h3 : (n + 1) ^ k * (n + 1) ≡ (1 + k * n) * (n + 1) [MOD n ^ 2] :=
        Nat.ModEq.mul_right _ ih
      have h4 : (1 + k * n) * (n + 1) = 1 + (k + 1) * n + k * n ^ 2 := by ring
      have h5 : 1 + (k + 1) * n + k * n ^ 2 ≡ 1 + (k + 1) * n + 0 [MOD n ^ 2] :=
        Nat.ModEq.add_left _ (Nat.modEq_zero_iff_dvd.mpr (dvd_mul_left _ _))
      calc (n + 1) ^ (k + 1) = (n + 1) ^ k * (n + 1) := pow_succ _ _
        _ ≡ (1 + k * n) * (n + 1) [MOD n ^ 2] := h3
        _ = 1 + (k + 1) * n + k * n ^ 2 := h4
        _ ≡ 1 + (k + 1) * n + 0 [MOD n ^ 2] := h5
        _ = 1 + (k + 1) * n := by ring

theorem pow_prime_sq_aux (p r t : ℕ) (hp : p.Prime) (hrp : Nat.Coprime r p)
    (hdvd : p * (p - 1) ∣ t) : r ^ t ≡ 1 [MOD p ^ 2] := by
  obtain ⟨k, hk⟩ := hdvd
  have htot : Nat.totient (p ^ 2) = p * (p - 1) := by
    rw [Nat.totient_prime_pow hp (by norm_num)]
    ring
  have heuler : r ^ Nat.totient (p ^ 2) ≡ 1 [MOD p ^ 2] :=
    Nat.ModEq.pow_totient (Nat.Coprime.pow_right 2 hrp)
  calc r ^ t = (r ^ (p * (p - 1))) ^ k := by rw [hk, pow_mul]
    _ ≡ 1 ^ k [MOD p ^ 2] := Nat.ModEq.pow k (htot ▸ heuler)
    _ = 1 := one_pow k

theorem pow_n_lam_modEq_one (p q r : ℕ) (hp : p.Prime) (hq : q.Prime)
    (hpq : p ≠ q) (hr : Nat.Coprime r (p * q)) :
    r ^ (p * q * Nat.lcm (p - 1) (q - 1)) ≡ 1 [MOD (p * q) ^ 2] := by
  have hrp : Nat.Coprime r p := Nat.Coprime.coprime_dvd_right (dvd_mul_right p q) hr
  have hrq : Nat.Coprime r q := Nat.Coprime.coprime_dvd_right (dvd_mul_left q p) hr
  have hdp : p * (p - 1) ∣ p * q * Nat.lcm (p - 1) (q - 1) := by
    obtain ⟨a, ha⟩ := Nat.dvd_lcm_left (p - 1) (q - 1)
    exact ⟨q * a, by rw [ha]; ring⟩
  have hdq : q * (q - 1) ∣ p * q * Nat.lcm (p - 1) (q - 1) := by
    obtain ⟨a, ha⟩ := Nat.dvd_lcm_right (p - 1) (q - 1)
    exact ⟨p * a, by rw [ha]; ring⟩
  have hmp := pow_prime_sq_aux p r _ hp hrp hdp
  have hmq := pow_prime_sq_aux q r _ hq hrq hdq
  have hcop : Nat.Coprime (p ^ 2) (q ^ 2) :=
    Nat.Coprime.pow 2 2 ((Nat.coprime_primes hp hq).mpr hpq)
  have h2 : (p * q) ^ 2 = p ^ 2 * q ^ 2 := mul_pow p q 2
  rw [h2]
  exact (Nat.modEq_and_modEq_iff_modEq_mul hcop).mp ⟨hmp, hmq⟩

theorem decrypt_core (p q lam mu M R c : ℕ)
    (hvk : ValidKeyPair p q lam mu)
    (hR : Nat.Coprime R (p * q)) (hM : M < p * q)
    (hc : c ≡ (p * q + 1) ^ M * R ^ (p * q) [MOD (p * q) ^ 2]) :
    decrypt (p * q) lam mu c = M := by
  obtain ⟨hp, hq, hpq, hlam, hmu⟩ := hvk
  set n := p * q with hn
  have hn4 : 4 ≤ n := by
    have h0 := Nat.mul_le_mul hp.two_le hq.two_le
    simpa [hn] using h0
  have hn0 : 0 < n := by omega
  have hclam : c ^ lam ≡ 1 + M * lam * n [MOD n ^ 2] := by
    have h1 : c ^ lam ≡ ((n + 1) ^ M * R ^ n) ^ lam [MOD n ^ 2] := hc.pow lam
    have h2 : ((n + 1) ^ M * R ^ n) ^ lam = (n + 1) ^ (M * lam) * R ^ (n * lam) := by
      rw [mul_pow, ← pow_mul, ← pow_mul]
    have h3 : (n + 1) ^ (M * lam) ≡ 1 + M * lam * n [MOD n ^ 2] :=
      add_one_pow_modEq n (M * lam)
    have h4 : R ^ (n * lam) ≡ 1 [MOD n ^ 2] := by
      rw [hlam, hn]
      exact pow_n_lam_modEq_one p q R hp hq hpq hR
    calc c ^ lam ≡ ((n + 1) ^ M * R ^ n) ^ lam [MOD n ^ 2] := h1
      _ = (n + 1) ^ (M * lam) * R ^ (n * lam) := h2
      _ ≡ (1 + M * lam * n) * 1 [MOD n ^ 2] := Nat.ModEq.mul h3 h4
      _ = 1 + M * lam * n := by ring
  have ha : M * lam % n < n := Nat.mod_lt _ hn0
  have hstep : M * lam % n * n + n ≤ n ^ 2 := by
    have h5 : (M * lam % n + 1) * n ≤ n * n := Nat.mul_le_mul_right n (by omega)
    calc M * lam % n * n + n = (M * lam % n + 1) * n := by ring
      _ ≤ n * n := h5
      _ = n ^ 2 := by ring
  have hlt : 1 + M * lam % n * n < n ^ 2 := by linarith
  have hmodeval : c ^ lam % n ^ 2 = 1 + M * lam % n * n := by
    have hdecomp : 1 + M * lam * n = 1 + M * lam % n * n + M * lam / n * n ^ 2 := by
      conv_lhs => rw [← Nat.div_add_mod (M * lam) n]
      ring
    have h7 : c ^ lam % n ^ 2 = (1 + M * lam * n) % n ^ 2 := hclam
    rw [h7, hdecomp, Nat.add_mul_mod_self_right, Nat.mod_eq_of_lt hlt]
  have hL : Lfun n (1 + M * lam % n * n) = M * lam % n := by
    unfold Lfun
    rw [Nat.add_sub_cancel_left 1 (M * lam % n * n)]
    rw [Nat.mul_div_cancel _ hn0]
  show Lfun n (c ^ lam % n ^ 2) * mu % n = M
  rw [hmodeval, hL]
  have h8 : M * lam % n * mu ≡ M [MOD n] := by
    calc M * lam % n * mu ≡ M * lam * mu [MOD n] :=
          Nat.ModEq.mul_right mu (Nat.mod_modEq _ n)
      _ = M * (mu * lam) := by ring
      _ ≡ M * 1 [MOD n] := Nat.ModEq.mul_left M hmu
      _ = M := by ring
  have h9 : M * lam % n * mu % n = M % n := h8
  rw [h9, Nat.mod_eq_of_lt hM]

theorem foldl_addition_eq_prod_mod (n : ℕ) (hn : 0 < n ^ 2) :
    ∀ (cs : List ℕ) (s : ℕ), s < n ^ 2 →
      cs.foldl (addition n) s = s * cs.prod % n ^ 2 := by
  intro cs
  induction cs with
  | nil =>
      intro s hs
      simp [Nat.mod_eq_of_lt hs]
  | cons c cs ih =>
      intro s hs
      have h1 : addition n s c < n ^ 2 := Nat.mod_lt _ hn
      calc (c :: cs).foldl (addition n) s = cs.foldl (addition n) (addition n s c) := rfl
        _ = addition n s c * cs.prod % n ^ 2 := ih _ h1
        _ = s * c % n ^ 2 * cs.prod % n ^ 2 := rfl
        _ = s * c * cs.prod % n ^ 2 := Nat.mod_mul_mod
        _ = s * (c :: cs).prod % n ^ 2 := by rw [List.prod_cons, ← mul_assoc]

theorem foldCiphertexts_eq_prod_mod (n : ℕ) (l : List ℕ) (hne : l ≠ [])
    (hlt : ∀ c ∈ l, c < n ^ 2) :
    foldCiphertexts n l = l.prod % n ^ 2 := by
  match l with
  | c :: cs =>
      have hc : c < n ^ 2 := hlt c (List.mem_cons_self c cs)
      have hn : 0 < n ^ 2 := Nat.pos_of_ne_zero (by omega)
      calc foldCiphertexts n (c :: cs) = cs.foldl (addition n) c := rfl
        _ = c * cs.prod % n ^ 2 := foldl_addition_eq_prod_mod n hn cs c hc
        _ = (c :: cs).prod % n ^ 2 := by rw [List.prod_cons]

theorem prod_zipWith_encrypt_modEq (n : ℕ) :
    ∀ (ms rs : List ℕ), ms.length = rs.length →
      (List.zipWith (encrypt n) ms rs).prod ≡
        (n + 1) ^ ms.sum * rs.prod ^ n [MOD n ^ 2] := by
  intro ms
  induction ms with
  | nil =>
      intro rs hlen
      have hrs : rs = [] := List.eq_nil_of_length_eq_zero hlen.symm
      subst hrs
      simpa using Nat.ModEq.refl (1 : ℕ)
  | cons m ms ih =>
      intro rs hlen
      match rs with
      | r :: rs =>
          have hlen2 : ms.length = rs.length := by simpa using hlen
          have henc : encrypt n m r ≡ (n + 1) ^ m * r ^ n [MOD n ^ 2] := by
            have h1 : encrypt n m r = (n + 1) ^ m * r ^ n % n ^ 2 := (Nat.mul_mod _ _ _).symm
            rw [h1]
            exact Nat.mod_modEq _ _
          have hrest := ih rs hlen2
          calc (List.zipWith (encrypt n) (m :: ms) (r :: rs)).prod
              = encrypt n m r * (List.zipWith (encrypt n) ms rs).prod := by
                rw [List.zipWith_cons_cons, List.prod_cons]
            _ ≡ ((n + 1) ^ m * r ^ n) * ((n + 1) ^ ms.sum * rs.prod ^ n) [MOD n ^ 2] :=
                Nat.ModEq.mul henc hrest
            _ = (n + 1) ^ (m + ms.sum) * (r * rs.prod) ^ n := by
                rw [pow_add, mul_pow]; ring
            _ = (n + 1) ^ (m :: ms).sum * ((r :: rs).prod) ^ n := by
                rw [List.sum_cons, List.prod_cons]

theorem coprime_list_prod (n : ℕ) :
    ∀ (rs : List ℕ), (∀ r ∈ rs, Nat.Coprime r n) → Nat.Coprime rs.prod n := by
  intro rs
  induction rs with
  | nil =>
      intro _
      rw [List.prod_nil]
      exact Nat.coprime_one_left n
  | cons r rs ih =>
      intro h
      rw [List.prod_cons]
      exact Nat.Coprime.mul (h r (List.mem_cons_self r rs))
        (ih fun x hx => h x (List.mem_cons_of_mem r hx))

theorem sum_le_length_of_bits :
    ∀ (ms : List ℕ), (∀ m ∈ ms, m = 0 ∨ m = 1) → ms.sum ≤ ms.length := by
  intro ms
  induction ms with
  | nil => intro _; simp
  | cons m ms ih =>
      intro h
      have hm : m = 0 ∨ m = 1 := h m (List.mem_cons_self m ms)
      have hrest := ih fun x hx => h x (List.mem_cons_of_mem m hx)
      rw [List.sum_cons, List.length_cons]
      omega

theorem zipWith_encrypt_lt (n : ℕ) (hn : 0 < n ^ 2) :
    ∀ (ms rs : List ℕ), ∀ c ∈ List.zipWith (encrypt n) ms rs, c < n ^ 2 := by
  intro ms
  induction ms with
  | nil => intro rs c hc; simp at hc
  | cons m ms ih =>
      intro rs c hc
      match rs with
      | [] => simp at hc
      | r :: rs =>
          rw [List.zipWith_cons_cons] at hc
          rcases List.mem_cons.mp hc with h | h
          · subst h; exact Nat.mod_lt _ hn
          · exact ih rs c h

theorem tally_decrypts (p q lam mu : ℕ) (ms rs : List ℕ)
    (hvk : ValidKeyPair p q lam mu)
    (hms : ∀ m ∈ ms, m = 0 ∨ m = 1)
    (hlen : ms.length = rs.length)
    (hne : ms ≠ [])
    (hrs : ∀ r ∈ rs, Nat.Coprime r (p * q))
    (hcount : ms.length < p * q) :
    decrypt (p * q) lam mu
      (foldCiphertexts (p * q) (List.zipWith (encrypt (p * q)) ms rs)) = ms.sum := by
  have h4 : 4 ≤ p * q := Nat.mul_le_mul hvk.1.two_le hvk.2.1.two_le
  have hn2 : 0 < (p * q) ^ 2 := by positivity
  have hzne : List.zipWith (encrypt (p * q)) ms rs ≠ [] := by
    match ms, rs with
    | [], _ => exact absurd rfl hne
    | m :: ms, [] => simp at hlen
    | m :: ms, r :: rs => simp
  have hzlt := zipWith_encrypt_lt (p * q) hn2 ms rs
  have hfold := foldCiphertexts_eq_prod_mod (p * q)
    (List.zipWith (encrypt (p * q)) ms rs) hzne hzlt
  have hc : foldCiphertexts (p * q) (List.zipWith (encrypt (p * q)) ms rs) ≡
      (p * q + 1) ^ ms.sum * rs.prod ^ (p * q) [MOD (p * q) ^ 2] := by
    rw [hfold]
    exact (Nat.mod_modEq _ _).trans (prod_zipWith_encrypt_modEq (p * q) ms rs hlen)
  have hM : ms.sum < p * q := by
    have hsl := sum_le_length_of_bits ms hms
    omega
  exact decrypt_core p q lam mu ms.sum rs.prod _ hvk
    (coprime_list_prod (p * q) rs hrs) hM hc

theorem computeHandler_state_eq (s : ServerState) (sid : String) :
    (computeHandler s sid).1 = s := by
  unfold computeHandler
  cases hg : getKey s.votingSessions sid with
  | none => rfl
  | some r => dsimp only; split <;> rfl

theorem submitHandler_response_eq (s : ServerState) (sid : String)
    (record : SessionRecord) (ev t : ℕ)
    (hsess : getKey s.votingSessions sid = some record) :
    (submitHandler s sid ev t).2 = SubmitResponse.ok (record.voteCount + 1) := by
  unfold submitHandler
  rw [hsess]

theorem submitHandler_votes_eq (s : ServerState) (sid : String)
    (record : SessionRecord) (ev t : ℕ)
    (hsess : getKey s.votingSessions sid = some record) :
    (getKey (submitHandler s sid ev t).1.encryptedVotes sid).getD [] =
      (getKey s.encryptedVotes sid).getD [] ++ [⟨ev, t⟩] := by
  unfold submitHandler
  rw [hsess]
  dsimp only
  rw [getKey_setKey_self]
  rfl

theorem computeHandler_ok_eq (s : ServerState) (sid : String)
    (record : SessionRecord)
    (hsess : getKey s.votingSessions sid = some record)
    (hne : (getKey s.encryptedVotes sid).getD [] ≠ []) :
    (computeHandler s sid).2 = ComputeResponse.ok
      (foldCiphertexts record.publicKey.n
        (((getKey s.encryptedVotes sid).getD []).map VoteRecord.encryptedValue))
      ((getKey s.encryptedVotes sid).getD []).length := by
  have hlen0 : ¬((getKey s.encryptedVotes sid).getD []).length = 0 := by
    intro h
    exact hne (List.eq_nil_of_length_eq_zero h)
  unfold computeHandler
  rw [hsess]
  dsimp only
  rw [if_neg hlen0]

/-- Claim C2: for every plaintext `m ∈ {0, 1}` and every valid key pair
generated at session initialisation, decrypting the ciphertext produced by
encrypting `m` with the public key, using the matching private key, returns
exactly `m`. -/
theorem encrypt_then_decrypt_roundtrip (p q lam mu m r : ℕ)
    (hvk : ValidKeyPair p q lam mu)
    (hm : m = 0 ∨ m = 1)
    (hr : Nat.Coprime r (p * q)) :
    decrypt (p * q) lam mu (encrypt (p * q) m r) = m := by
  have h4 : 4 ≤ p * q := Nat.mul_le_mul hvk.1.two_le hvk.2.1.two_le
  have hM : m < p * q := by omega
  apply decrypt_core p q lam mu m r _ hvk hr hM
  have h1 : encrypt (p * q) m r = (p * q + 1) ^ m * r ^ (p * q) % (p * q) ^ 2 :=
    (Nat.mul_mod _ _ _).symm
  rw [h1]
  exact Nat.mod_modEq _ _

/-- Witness for C2: with the 35-modulus test key pair `(p, q) = (5, 7)`,
`λ = 12`, `μ = 12⁻¹ = 3 (mod 35)` and randomness `r = 2`, the vote `1`
round-trips through encrypt and decrypt. -/
theorem encrypt_then_decrypt_roundtrip_witness :
    decrypt (5 * 7) 12 3 (encrypt (5 * 7) 1 2) = 1 :=
  encrypt_then_decrypt_roundtrip 5 7 12 3 1 2
    ⟨by norm_num, by norm_num, by norm_num, by decide, by decide⟩
    (Or.inr rfl) (by decide)

/-- Claim C9: for every non-empty sequence of ciphertexts each in `[0, n²)`
and every permutation of it, the fold performed by the compute handler yields
the identical aggregate, namely the product of all elements modulo `n²`,
independent of submission order. -/
theorem fold_is_order_independent (n : ℕ) (l l2 : List ℕ) (hperm : l.Perm l2)
    (hne : l ≠ []) (hlt : ∀ c ∈ l, c < n ^ 2) :
    foldCiphertexts n l = foldCiphertexts n l2 ∧
      foldCiphertexts n l = l.prod % n ^ 2 := by
  have hne2 : l2 ≠ [] := by
    intro h
    subst h
    exact hne hperm.eq_nil
  have hlt2 : ∀ c ∈ l2, c < n ^ 2 := fun c hc => hlt c (hperm.mem_iff.mpr hc)
  have h1 := foldCiphertexts_eq_prod_mod n l hne hlt
  have h2 := foldCiphertexts_eq_prod_mod n l2 hne2 hlt2
  refine ⟨?_, h1⟩
  rw [h1, h2, hperm.prod_eq]

/-- Witness for C9: folding `[100, 200, 300]` and its permutation
`[300, 100, 200]` over the 35-modulus key yields the same aggregate, the
product modulo `35²`. -/
theorem fold_is_order_independent_witness :
    foldCiphertexts 35 [100, 200, 300] = foldCiphertexts 35 [300, 100, 200] ∧
      foldCiphertexts 35 [100, 200, 300] = List.prod [100, 200, 300] % 35 ^ 2 :=
  fold_is_order_independent 35 [100, 200, 300] [300, 100, 200]
    (by decide) (by decide) (by decide)

/-- Claim C7: for every session whose stored ciphertext sequence is empty, the
compute handler fails with the 400 response `No votes to compute` (the spec's
`EmptyTallyError`), reported to the caller; it neither crashes (the handler is
a total function), nor returns a success response with a silent aggregate,
nor touches the stores. -/
theorem empty_tally_reports_error (s : ServerState) (sid : String)
    (record : SessionRecord)
    (hsess : getKey s.votingSessions sid = some record)
    (hempty : (getKey s.encryptedVotes sid).getD [] = []) :
    (computeHandler s sid).2 = ComputeResponse.noVotesToCompute ∧
      (computeHandler s sid).1 = s ∧
      ∀ a k, (computeHandler s sid).2 ≠ ComputeResponse.ok a k := by
  have hmain : (computeHandler s sid).2 = ComputeResponse.noVotesToCompute := by
    unfold computeHandler
    rw [hsess]
    dsimp only
    rw [hempty]
    rfl
  refine ⟨hmain, computeHandler_state_eq s sid, ?_⟩
  intro a k h
  rw [hmain] at h
  exact ComputeResponse.noConfusion h

/-- Witness for C7: a freshly initialised session has no votes, and compute on
it answers `No votes to compute` and in particular no success response. -/
theorem empty_tally_reports_error_witness :
    (computeHandler (run [Op.init ("s") ⟨35, 36, 12, 3⟩ 0]) ("s")).2 =
      ComputeResponse.noVotesToCompute ∧
      (computeHandler (run [Op.init ("s") ⟨35, 36, 12, 3⟩ 0]) ("s")).2 ≠
        ComputeResponse.ok 0 1 :=
  ⟨(empty_tally_reports_error (run [Op.init ("s") ⟨35, 36, 12, 3⟩ 0]) ("s")
      ⟨⟨35, 36⟩, 0, 0⟩ (by decide) (by decide)).1,
   (empty_tally_reports_error (run [Op.init ("s") ⟨35, 36, 12, 3⟩ 0]) ("s")
      ⟨⟨35, 36⟩, 0, 0⟩ (by decide) (by decide)).2.2 0 1⟩

/-- Claim C1 counterexample: with the valid 35-modulus test key pair, a
session holding 36 submitted encryptions of the plaintext `1` decrypts its
aggregate to `36 mod 35 = 1`, not to the sum `36`: the tally is the sum
modulo `n`, so the claim as stated fails once the ballot count reaches the
modulus. -/
theorem tally_sum_wraps_at_modulus :
    decrypt 35 12 3
        (foldCiphertexts 35
          (List.zipWith (encrypt 35) (List.replicate 36 1) (List.replicate 36 2))) = 1 ∧
      (List.replicate 36 (1 : ℕ)).sum = 36 ∧
      ValidKeyPair 5 7 12 3 ∧ 5 * 7 = 35 :=
  ⟨by decide, by decide,
   ⟨by norm_num, by norm_num, by norm_num, by decide, by decide⟩, rfl⟩

/-- Claim C1 (amended): for every session whose stored ciphertexts are the
encryptions of plaintexts `m₁..mₖ ∈ {0, 1}` under the session's valid public
key, with fewer ballots than the modulus `n` (always true for the 2048-bit
keys the init route generates, but needed in general since the tally is the
sum modulo `n`), the compute handler returns the homomorphic fold and
decrypting it with the matching private key yields `m₁ + ... + mₖ`. -/
theorem compute_tally_decrypts_to_sum (s : ServerState) (sid : String)
    (record : SessionRecord) (p q lam mu : ℕ) (ms rs : List ℕ)
    (hvk : ValidKeyPair p q lam mu)
    (hsess : getKey s.votingSessions sid = some record)
    (hpub : record.publicKey.n = p * q)
    (hvotes : ((getKey s.encryptedVotes sid).getD []).map VoteRecord.encryptedValue =
      List.zipWith (encrypt (p * q)) ms rs)
    (hms : ∀ m ∈ ms, m = 0 ∨ m = 1)
    (hlen : ms.length = rs.length)
    (hne : ms ≠ [])
    (hrs : ∀ r ∈ rs, Nat.Coprime r (p * q))
    (hcount : ms.length < p * q) :
    (computeHandler s sid).2 =
      ComputeResponse.ok
        (foldCiphertexts (p * q) (List.zipWith (encrypt (p * q)) ms rs)) ms.length ∧
      decrypt (p * q) lam mu
        (foldCiphertexts (p * q) (List.zipWith (encrypt (p * q)) ms rs)) = ms.sum := by
  have hlenv : ((getKey s.encryptedVotes sid).getD []).length = ms.length := by
    have h1 := congrArg List.length hvotes
    simp only [List.length_map, List.length_zipWith] at h1
    omega
  have hnev : (getKey s.encryptedVotes sid).getD [] ≠ [] := by
    intro h
    apply hne
    rw [h] at hlenv
    exact List.eq_nil_of_length_eq_zero hlenv.symm
  constructor
  · rw [computeHandler_ok_eq s sid record hsess hnev, hpub, hvotes, hlenv]
  · exact tally_decrypts p q lam mu ms rs hvk hms hlen hne hrs hcount

/-- Witness for amended C1: a session under the 35-modulus test key holding
the encrypted ballots `[1, 1, 0]`; compute answers the fold and the private
key decrypts it to `2`. -/
theorem compute_tally_decrypts_to_sum_witness :
    (computeHandler
        (run [Op.init ("s") ⟨35, 36, 12, 3⟩ 0,
          Op.submit ("s") (encrypt 35 1 2) 1,
          Op.submit ("s") (encrypt 35 1 3) 2,
          Op.submit ("s") (encrypt 35 0 4) 3]) ("s")).2 =
      ComputeResponse.ok
        (foldCiphertexts (5 * 7) (List.zipWith (encrypt (5 * 7)) [1, 1, 0] [2, 3, 4]))
        ([1, 1, 0] : List ℕ).length ∧
      decrypt (5 * 7) 12 3
        (foldCiphertexts (5 * 7) (List.zipWith (encrypt (5 * 7)) [1, 1, 0] [2, 3, 4])) =
        ([1, 1, 0] : List ℕ).sum :=
  compute_tally_decrypts_to_sum
    (run [Op.init ("s") ⟨35, 36, 12, 3⟩ 0,
      Op.submit ("s") (encrypt 35 1 2) 1,
      Op.submit ("s") (encrypt 35 1 3) 2,
      Op.submit ("s") (encrypt 35 0 4) 3]) ("s")
    ⟨⟨35, 36⟩, 0, 3⟩ 5 7 12 3 [1, 1, 0] [2, 3, 4]
    ⟨by norm_num, by norm_num, by norm_num, by decide, by decide⟩
    (by decide) (by decide) (by decide) (by decide) (by decide) (by decide)
    (by decide) (by decide)

/-- Claim C3: in every reachable server state, the `votingSessions` store is
unaffected by erasing all private-key material from the requests (no `λ` or
`μ` ever flows into it), and every stored session record serialises to
exactly the public half `(n, g)` plus the `createdAt` and `voteCount`
metadata — there is no `lambda` or `mu` field. -/
theorem session_store_free_of_private_key (ops : List Op) :
    run (ops.map scrubPrivate) = run ops ∧
      ∀ sid r, getKey (run ops).votingSessions sid = some r →
        (serializeRecord r).map Prod.fst =
          [("publicKey.n" : String), ("publicKey.g"), ("createdAt"), ("voteCount")] := by
  constructor
  · have hstep : ∀ (s : ServerState) (op : Op), step s (scrubPrivate op) = step s op := by
      intro s op
      cases op <;> rfl
    have hfold : ∀ (ops2 : List Op) (s : ServerState),
        (ops2.map scrubPrivate).foldl step s = ops2.foldl step s := by
      intro ops2
      induction ops2 with
      | nil => intro s; rfl
      | cons o os ih =>
          intro s
          rw [List.map_cons, List.foldl_cons, List.foldl_cons, hstep, ih]
    exact hfold ops _
  · intro sid r _
    rfl

/-- Witness for C3: a trace that initialises a session with the full key pair
`(n, g, λ, μ) = (35, 36, 12, 3)` and submits one ballot leaves the very same
state as the trace with `λ` and `μ` zeroed out, and its stored record carries
only the four public fields. -/
theorem session_store_free_of_private_key_witness :
    run ([Op.init ("s") ⟨35, 36, 12, 3⟩ 0, Op.submit ("s") 100 1].map scrubPrivate) =
      run [Op.init ("s") ⟨35, 36, 12, 3⟩ 0, Op.submit ("s") 100 1] ∧
      (serializeRecord ⟨⟨35, 36⟩, 0, 1⟩).map Prod.fst =
        [("publicKey.n" : String), ("publicKey.g"), ("createdAt"), ("voteCount")] :=
  ⟨(session_store_free_of_private_key
      [Op.init ("s") ⟨35, 36, 12, 3⟩ 0, Op.submit ("s") 100 1]).1,
   (session_store_free_of_private_key
      [Op.init ("s") ⟨35, 36, 12, 3⟩ 0, Op.submit ("s") 100 1]).2 ("s")
      ⟨⟨35, 36⟩, 0, 1⟩ (by decide)⟩

/-- Claim C4 counterexample: a session on which compute has already run (one
ballot, successful tally) accepts a further submission with a success
response and its ciphertext sequence grows to length 2 — there is no
`SessionClosedError` and no session status at all in the code. -/
theorem submit_after_compute_is_accepted :
    (submitHandler (run [Op.init ("s") ⟨35, 36, 12, 3⟩ 0,
        Op.submit ("s") 100 1, Op.compute ("s")]) ("s") 200 2).2 =
      SubmitResponse.ok 2 ∧
      ((getKey (submitHandler (run [Op.init ("s") ⟨35, 36, 12, 3⟩ 0,
          Op.submit ("s") 100 1, Op.compute ("s")]) ("s") 200 2).1.encryptedVotes
        ("s")).getD []).length = 2 := by
  decide

/-- Claim C4 (amended): the compute handler never mutates the stores, and a
submission to an existing session is always accepted and appended — also
after compute has run; the code has no session state machine and never
rejects with `SessionClosedError`. -/
theorem submit_accepted_regardless_of_compute (s : ServerState) (sid : String)
    (record : SessionRecord) (ev t : ℕ)
    (hsess : getKey s.votingSessions sid = some record) :
    (computeHandler s sid).1 = s ∧
      (submitHandler s sid ev t).2 = SubmitResponse.ok (record.voteCount + 1) ∧
      (getKey (submitHandler s sid ev t).1.encryptedVotes sid).getD [] =
        (getKey s.encryptedVotes sid).getD [] ++ [⟨ev, t⟩] :=
  ⟨computeHandler_state_eq s sid,
   submitHandler_response_eq s sid record ev t hsess,
   submitHandler_votes_eq s sid record ev t hsess⟩

/-- Witness for amended C4: concrete instance of the acceptance of a
post-compute submission. -/
theorem submit_accepted_regardless_of_compute_witness :
    (computeHandler (run [Op.init ("s") ⟨35, 36, 12, 3⟩ 0,
        Op.submit ("s") 100 1, Op.compute ("s")]) ("s")).1 =
        run [Op.init ("s") ⟨35, 36, 12, 3⟩ 0, Op.submit ("s") 100 1, Op.compute ("s")] ∧
      (submitHandler (run [Op.init ("s") ⟨35, 36, 12, 3⟩ 0,
          Op.submit ("s") 100 1, Op.compute ("s")]) ("s") 200 2).2 =
        SubmitResponse.ok (1 + 1) ∧
      (getKey (submitHandler (run [Op.init ("s") ⟨35, 36, 12, 3⟩ 0,
          Op.submit ("s") 100 1, Op.compute ("s")]) ("s") 200 2).1.encryptedVotes
        ("s")).getD [] =
        (getKey (run [Op.init ("s") ⟨35, 36, 12, 3⟩ 0,
          Op.submit ("s") 100 1, Op.compute ("s")]).encryptedVotes ("s")).getD [] ++
          [⟨200, 2⟩] :=
  submit_accepted_regardless_of_compute
    (run [Op.init ("s") ⟨35, 36, 12, 3⟩ 0, Op.submit ("s") 100 1, Op.compute ("s")])
    ("s") ⟨⟨35, 36⟩, 0, 1⟩ 200 2 (by decide)

/-- Claim C5 counterexample: submitting the value `35² = 1225`, which is out
of the valid ciphertext range `[0, n²)` for the session's modulus `n = 35`,
is accepted with a success response and stored — there is no range check and
no `InvalidCiphertextError` in the code. -/
theorem out_of_range_ciphertext_is_stored :
    (submitHandler (run [Op.init ("s") ⟨35, 36, 12, 3⟩ 0]) ("s") (35 ^ 2) 1).2 =
      SubmitResponse.ok 1 ∧
      (getKey (submitHandler (run [Op.init ("s") ⟨35, 36, 12, 3⟩ 0]) ("s")
        (35 ^ 2) 1).1.encryptedVotes ("s")).getD [] = [⟨35 ^ 2, 1⟩] := by
  decide

/-- Claim C5 (amended): for every existing session, the submit handler
appends the submitted value without any range validation — in particular
every value `ev ≥ n²` is accepted and stored rather than rejected with
`InvalidCiphertextError`. -/
theorem submit_appends_without_range_check (s : ServerState) (sid : String)
    (record : SessionRecord) (ev t : ℕ)
    (hsess : getKey s.votingSessions sid = some record)
    (_hbig : record.publicKey.n ^ 2 ≤ ev) :
    (submitHandler s sid ev t).2 = SubmitResponse.ok (record.voteCount + 1) ∧
      (getKey (submitHandler s sid ev t).1.encryptedVotes sid).getD [] =
        (getKey s.encryptedVotes sid).getD [] ++ [⟨ev, t⟩] :=
  ⟨submitHandler_response_eq s sid record ev t hsess,
   submitHandler_votes_eq s sid record ev t hsess⟩

/-- Witness for amended C5: the out-of-range value `35²` is appended to a
fresh session. -/
theorem submit_appends_without_range_check_witness :
    (submitHandler (run [Op.init ("s") ⟨35, 36, 12, 3⟩ 0]) ("s") (35 ^ 2) 1).2 =
      SubmitResponse.ok (0 + 1) ∧
      (getKey (submitHandler (run [Op.init ("s") ⟨35, 36, 12, 3⟩ 0]) ("s")
        (35 ^ 2) 1).1.encryptedVotes ("s")).getD [] =
        (getKey (run [Op.init ("s") ⟨35, 36, 12, 3⟩ 0]).encryptedVotes ("s")).getD [] ++
          [⟨35 ^ 2, 1⟩] :=
  submit_appends_without_range_check (run [Op.init ("s") ⟨35, 36, 12, 3⟩ 0]) ("s")
    ⟨⟨35, 36⟩, 0, 0⟩ (35 ^ 2) 1 (by decide) (by decide)

/-- Claim C6 counterexample: on a session with one stored ballot, compute
succeeds with the aggregate in the response, yet the stores afterwards equal
the stores before — the session record still holds only `publicKey`,
`createdAt` and `voteCount`, with no aggregate ciphertext and no status
field, and nothing moved through `Tallying` to `Tallied`. -/
theorem compute_stores_no_aggregate :
    (computeHandler (run [Op.init ("s") ⟨35, 36, 12, 3⟩ 0,
        Op.submit ("s") 100 1]) ("s")).2 = ComputeResponse.ok 100 1 ∧
      (computeHandler (run [Op.init ("s") ⟨35, 36, 12, 3⟩ 0,
        Op.submit ("s") 100 1]) ("s")).1 =
        run [Op.init ("s") ⟨35, 36, 12, 3⟩ 0, Op.submit ("s") 100 1] ∧
      getKey (run [Op.init ("s") ⟨35, 36, 12, 3⟩ 0,
        Op.submit ("s") 100 1]).votingSessions ("s") = some ⟨⟨35, 36⟩, 0, 1⟩ := by
  decide

/-- Claim C6 (amended): every successful compute returns the folded
ciphertext in the HTTP response only; it never writes the aggregate (or any
status) into the session record — the server state is left entirely
unchanged. -/
theorem compute_returns_fold_but_stores_nothing (s : ServerState) (sid : String)
    (record : SessionRecord)
    (hsess : getKey s.votingSessions sid = some record)
    (hne : (getKey s.encryptedVotes sid).getD [] ≠ []) :
    (computeHandler s sid).1 = s ∧
      (computeHandler s sid).2 = ComputeResponse.ok
        (foldCiphertexts record.publicKey.n
          (((getKey s.encryptedVotes sid).getD []).map VoteRecord.encryptedValue))
        ((getKey s.encryptedVotes sid).getD []).length :=
  ⟨computeHandler_state_eq s sid, computeHandler_ok_eq s sid record hsess hne⟩

/-- Witness for amended C6: with one stored ballot `100`, compute answers
`ok 100 1` and leaves the state untouched. -/
theorem compute_returns_fold_but_stores_nothing_witness :
    (computeHandler (run [Op.init ("s") ⟨35, 36, 12, 3⟩ 0,
        Op.submit ("s") 100 1]) ("s")).1 =
        run [Op.init ("s") ⟨35, 36, 12, 3⟩ 0, Op.submit ("s") 100 1] ∧
      (computeHandler (run [Op.init ("s") ⟨35, 36, 12, 3⟩ 0,
        Op.submit ("s") 100 1]) ("s")).2 = ComputeResponse.ok
        (foldCiphertexts 35
          (((getKey (run [Op.init ("s") ⟨35, 36, 12, 3⟩ 0,
            Op.submit ("s") 100 1]).encryptedVotes ("s")).getD []).map
            VoteRecord.encryptedValue))
        ((getKey (run [Op.init ("s") ⟨35, 36, 12, 3⟩ 0,
          Op.submit ("s") 100 1]).encryptedVotes ("s")).getD []).length :=
  compute_returns_fold_but_stores_nothing
    (run [Op.init ("s") ⟨35, 36, 12, 3⟩ 0, Op.submit ("s") 100 1]) ("s")
    ⟨⟨35, 36⟩, 0, 1⟩ (by decide) (by decide)

/-- Claim C8 counterexample: a session stores the honest encryption of `1`
and a corrupted ciphertext (the honest encryption of `1` plus one, still
coprime to `n²`); compute succeeds — nothing rejects the corrupted element —
and the aggregate `969` is itself coprime to `35² = 1225`, so even the
spec's checked decryption (§4.3, `DecryptionError` on `gcd(c, n²) ≠ 1`)
raises no error and returns `8`, silently different from the true sum `2`. -/
theorem corrupted_ciphertext_changes_sum_silently :
    (computeHandler (run [Op.init ("s") ⟨35, 36, 12, 3⟩ 0,
        Op.submit ("s") (encrypt 35 1 2) 1,
        Op.submit ("s") (encrypt 35 1 3 + 1) 2]) ("s")).2 =
      ComputeResponse.ok
        (foldCiphertexts 35 [encrypt 35 1 2, encrypt 35 1 3 + 1]) 2 ∧
      decryptChecked 35 12 3
        (foldCiphertexts 35 [encrypt 35 1 2, encrypt 35 1 3 + 1]) = some 8 ∧
      decryptChecked 35 12 3
        (foldCiphertexts 35 [encrypt 35 1 2, encrypt 35 1 3]) = some 2 := by
  decide

/-- Claim C8 (amended): the fold never rejects a stored element — compute on
a non-empty session always answers a success response folding every stored
value — and decryption fails with `DecryptionError` only on ciphertexts not
coprime to `n²` (spec §4.3): whenever the folded aggregate of the (possibly
corrupted) vote list is coprime to `n²`, checked decryption also raises no
error and returns a plaintext, so such a corruption passes both stages
silently. -/
theorem compute_and_unit_decryption_never_fail (s : ServerState) (sid : String)
    (record : SessionRecord) (lam mu : ℕ)
    (hsess : getKey s.votingSessions sid = some record)
    (hne : (getKey s.encryptedVotes sid).getD [] ≠ [])
    (hunit : Nat.gcd
      (foldCiphertexts record.publicKey.n
        (((getKey s.encryptedVotes sid).getD []).map VoteRecord.encryptedValue))
      (record.publicKey.n ^ 2) = 1) :
    (computeHandler s sid).2 = ComputeResponse.ok
      (foldCiphertexts record.publicKey.n
        (((getKey s.encryptedVotes sid).getD []).map VoteRecord.encryptedValue))
      ((getKey s.encryptedVotes sid).getD []).length ∧
      decryptChecked record.publicKey.n lam mu
        (foldCiphertexts record.publicKey.n
          (((getKey s.encryptedVotes sid).getD []).map VoteRecord.encryptedValue)) =
        some (decrypt record.publicKey.n lam mu
          (foldCiphertexts record.publicKey.n
            (((getKey s.encryptedVotes sid).getD []).map VoteRecord.encryptedValue))) :=
  ⟨computeHandler_ok_eq s sid record hsess hne,
   by unfold decryptChecked; rw [if_pos hunit]⟩

/-- Witness for amended C8: the session holding the coprime-corrupted second
ciphertext gets a success response folding both stored values, and checked
decryption of that aggregate raises no error. -/
theorem compute_and_unit_decryption_never_fail_witness :
    (computeHandler (run [Op.init ("s") ⟨35, 36, 12, 3⟩ 0,
        Op.submit ("s") (encrypt 35 1 2) 1,
        Op.submit ("s") (encrypt 35 1 3 + 1) 2]) ("s")).2 =
      ComputeResponse.ok
        (foldCiphertexts 35
          (((getKey (run [Op.init ("s") ⟨35, 36, 12, 3⟩ 0,
            Op.submit ("s") (encrypt 35 1 2) 1,
            Op.submit ("s") (encrypt 35 1 3 + 1) 2]).encryptedVotes ("s")).getD
            []).map VoteRecord.encryptedValue))
        ((getKey (run [Op.init ("s") ⟨35, 36, 12, 3⟩ 0,
          Op.submit ("s") (encrypt 35 1 2) 1,
          Op.submit ("s") (encrypt 35 1 3 + 1) 2]).encryptedVotes ("s")).getD
          []).length ∧
      decryptChecked 35 12 3
        (foldCiphertexts 35
          (((getKey (run [Op.init ("s") ⟨35, 36, 12, 3⟩ 0,
            Op.submit ("s") (encrypt 35 1 2) 1,
            Op.submit ("s") (encrypt 35 1 3 + 1) 2]).encryptedVotes ("s")).getD
            []).map VoteRecord.encryptedValue)) =
        some (decrypt 35 12 3
          (foldCiphertexts 35
            (((getKey (run [Op.init ("s") ⟨35, 36, 12, 3⟩ 0,
              Op.submit ("s") (encrypt 35 1 2) 1,
              Op.submit ("s") (encrypt 35 1 3 + 1) 2]).encryptedVotes ("s")).getD
              []).map VoteRecord.encryptedValue))) :=
  compute_and_unit_decryption_never_fail
    (run [Op.init ("s") ⟨35, 36, 12, 3⟩ 0,
      Op.submit ("s") (encrypt 35 1 2) 1,
      Op.submit ("s") (encrypt 35 1 3 + 1) 2]) ("s")
    ⟨⟨35, 36⟩, 0, 2⟩ 12 3 (by decide) (by decide) (by decide)

set_option maxRecDepth 8192 in
/-- Claim C10 counterexample: for the stored ballot whose ciphertext string
is `123` (3 characters, within the 50-character prefix), the snapshot entry
is `123...` — the full ciphertext followed by dots — and dropping the three
trailing dots reconstructs the complete ciphertext, contradicting `never the
full ciphertext`. -/
theorem snapshot_exposes_short_ciphertext :
    getSessionHandler (run [Op.init ("s") ⟨35, 36, 12, 3⟩ 0,
        Op.submit ("s") 123 1]) ("s") =
      GetSessionResponse.ok ⟨("s"), 1, 0, ⟨35, 36⟩⟩ [⟨("123..."), 1⟩] ∧
      ("123...").dropRight 3 = Nat.repr 123 := by
  decide

/-- Claim C10 (amended): the snapshot renders each stored ballot as the first
`min(50, length)` characters of its ciphertext string followed by `...`; this
hides ciphertexts longer than 50 characters (the truncation is not injective
on them), but a ciphertext of at most 50 characters is exposed in full. -/
theorem snapshot_truncates_to_fifty_chars (s : ServerState) (sid : String)
    (record : SessionRecord)
    (hsess : getKey s.votingSessions sid = some record) :
    getSessionHandler s sid = GetSessionResponse.ok
      { sessionId := sid, voteCount := record.voteCount,
        createdAt := record.createdAt, publicKey := record.publicKey }
      (((getKey s.encryptedVotes sid).getD []).map fun v =>
        { encrypted := (Nat.repr v.encryptedValue).take 50 ++ ("..."),
          timestamp := v.timestamp }) ∧
      ∃ v1 v2 : ℕ, v1 ≠ v2 ∧ truncateCiphertext v1 = truncateCiphertext v2 := by
  constructor
  · unfold getSessionHandler
    rw [hsess]
    rfl
  · exact ⟨10 ^ 51, 10 ^ 51 + 1, by decide,
      by set_option maxRecDepth 4096 in decide⟩

/-- Witness for amended C10: concrete snapshot of a session holding the
ballot `123`, plus the non-injectivity pair. -/
theorem snapshot_truncates_to_fifty_chars_witness :
    getSessionHandler (run [Op.init ("s") ⟨35, 36, 12, 3⟩ 0,
        Op.submit ("s") 123 1]) ("s") = GetSessionResponse.ok
      { sessionId := ("s"), voteCount := 1, createdAt := 0, publicKey := ⟨35, 36⟩ }
      (((getKey (run [Op.init ("s") ⟨35, 36, 12, 3⟩ 0,
        Op.submit ("s") 123 1]).encryptedVotes ("s")).getD []).map fun v =>
        { encrypted := (Nat.repr v.encryptedValue).take 50 ++ ("..."),
          timestamp := v.timestamp }) ∧
      ∃ v1 v2 : ℕ, v1 ≠ v2 ∧ truncateCiphertext v1 = truncateCiphertext v2 :=
  snapshot_truncates_to_fifty_chars
    (run [Op.init ("s") ⟨35, 36, 12, 3⟩ 0, Op.submit ("s") 123 1]) ("s")
    ⟨⟨35, 36⟩, 0, 1⟩ (by decide)

end SecureVoting
